import Mathlib

/-
  Verification of the GLUCC binary codec (kerry::packer / james::unpacker).

  The packer (src/packer.hpp) serializes integral values into a growable
  byte buffer in network byte order; the unpacker (src/unpacker.hpp)
  deserializes a borrowed byte region with bounds-checked, cursor-advancing
  extraction.  Bytes are modelled as natural numbers < 256; the packer's
  `std::vector<std::byte> m_data` is a `List Nat`, and the unpacker's
  three pointers (m_begin, m_end, m_next) are modelled by the borrowed
  region `m_buf : List Nat` (covering [m_begin, m_end)) together with the
  offset `m_next : Nat` of the cursor from the start, so that the C++
  `m_begin` corresponds to offset 0 and `m_end` to `m_buf.length`.
-/

namespace kerry

/-- Error thrown by `kerry::packer::check_size` (struct size_error). -/
structure size_error where
  msg : String
  deriving DecidableEq

/-- State of `kerry::packer`: the byte buffer and the target size. -/
structure packer where
  m_data : List Nat
  m_target_size : Nat
  deriving DecidableEq

/-- Models `packer()` — default constructor, variable size (m_target_size = 0). -/
def packer.mk0 : packer := ⟨[], 0⟩

/-- Models `packer(std::size_t size)` — fixed-size constructor (reserve is a
    capacity hint only, with no observable effect on the data model). -/
def packer.mkSized (size : Nat) : packer := ⟨[], size⟩

/-- Models `packer::size()` — current number of bytes in the buffer. -/
def packer.size (p : packer) : Nat := p.m_data.length

/-- Models `packer::copy(p, n)` — append n raw bytes to the buffer
    (modelled as appending the byte list). -/
def packer.copy (p : packer) (bs : List Nat) : packer :=
  { p with m_data := p.m_data ++ bs }

/-- Models `packer::clear()` — empty the buffer, keeping m_target_size. -/
def packer.clear (p : packer) : packer := { p with m_data := [] }

/-- The two bytes copied by `val = htons(val); copy(&val, 2);`: the value
    reduced to 16 bits, laid out big-endian (network byte order). -/
def htons (v : Nat) : List Nat :=
  [v % 65536 / 256, v % 256]

/-- The four bytes copied by `val = htonl(val); copy(&val, 4);`: the value
    reduced to 32 bits, laid out big-endian (network byte order). -/
def htonl (v : Nat) : List Nat :=
  [v % 4294967296 / 16777216, v / 65536 % 256, v / 256 % 256, v % 256]

/-- Models `operator<<(std::byte val)` — push_back one byte. -/
def packer.insertStdByte (p : packer) (v : Nat) : packer :=
  p.copy [v % 256]

/-- Models `operator<<(B b)` for 1-byte unsigned integral B — copy the byte. -/
def packer.insertU8 (p : packer) (v : Nat) : packer :=
  p.copy [v % 256]

/-- Models `operator<<(B b)` for 1-byte signed integral B — copy the byte
    (two's-complement representation of the value). -/
def packer.insertI8 (p : packer) (v : Int) : packer :=
  p.copy [(v % 256).toNat]

/-- Models `operator<<(B b)` with B = bool — bool converts to byte 1 or 0. -/
def packer.insertBool (p : packer) (b : Bool) : packer :=
  p.copy [if b then 1 else 0]

/-- Models `operator<<(std::uint16_t val)`. -/
def packer.insertU16 (p : packer) (v : Nat) : packer :=
  p.copy (htons v)

/-- Models `operator<<(std::int16_t val)` — htons receives the 16-bit
    two's-complement pattern of the value. -/
def packer.insertI16 (p : packer) (v : Int) : packer :=
  p.copy (htons (v % 65536).toNat)

/-- Models `operator<<(std::uint32_t val)`. -/
def packer.insertU32 (p : packer) (v : Nat) : packer :=
  p.copy (htonl v)

/-- Models `operator<<(std::int32_t val)` — htonl receives the 32-bit
    two's-complement pattern of the value. -/
def packer.insertI32 (p : packer) (v : Int) : packer :=
  p.copy (htonl (v % 4294967296).toNat)

/-- Models `operator<<(const B (&b)[N])` for 1-byte integral B — bulk copy of the
    N raw bytes of the array (for a string literal, N includes the
    terminating null byte). -/
def packer.insertByteArray (p : packer) (bs : List Nat) : packer :=
  p.copy bs

/-- The bytes of the char array denoted by a narrow string literal:
    the character bytes followed by the terminating null byte. -/
def cLiteralBytes (s : String) : List Nat :=
  s.data.map (fun c => c.toNat % 256) ++ [0]

/-- Models `packer::check_size()` — Some error iff a target size is set and the
    accumulated size differs from it. -/
def packer.check_size (p : packer) : Option size_error :=
  if p.m_target_size > 0 ∧ p.size ≠ p.m_target_size then
    some ⟨"packer size " ++ toString p.size ++ " <> " ++
          toString p.m_target_size⟩
  else none

/-- Models `packer::data()` — check the size, then yield the buffer. -/
def packer.data (p : packer) : Except size_error (List Nat) :=
  match p.check_size with
  | some e => Except.error e
  | none => Except.ok p.m_data

end kerry

namespace james

/-- The `std::length_error("unpacker overrun")` thrown by
    `james::unpacker::check_size`. -/
inductive unpack_error where
  | overrun
  deriving DecidableEq

/-- State of `james::unpacker`: the borrowed byte region [m_begin, m_end)
    and the offset of the cursor m_next from m_begin. -/
structure unpacker where
  m_buf : List Nat
  m_next : Nat
  deriving DecidableEq

/-- Construction from a byte region (pointer + length, array, or byte
    container): m_next starts at m_begin, i.e. offset 0. -/
def unpacker.mk0 (bs : List Nat) : unpacker := ⟨bs, 0⟩

/-- Models `unpacker::size()` = m_end - m_begin. -/
def unpacker.size (u : unpacker) : Nat := u.m_buf.length

/-- Models `unpacker::remaining()` = m_end - m_next. -/
def unpacker.remaining (u : unpacker) : Nat := u.m_buf.length - u.m_next

/-- Models `unpacker::reset()` — rewind m_next to m_begin. -/
def unpacker.reset (u : unpacker) : unpacker := { u with m_next := 0 }

/-- Models `unpacker::copy(p, n)` — `check_size(n)` throws overrun when
    m_next + n > m_end, before any byte is copied or the cursor moved;
    otherwise the n bytes at the cursor are copied out and m_next
    advances by n. -/
def unpacker.copy (u : unpacker) (n : Nat) :
    Except unpack_error (List Nat) × unpacker :=
  if u.m_next + n > u.m_buf.length then
    (Except.error unpack_error.overrun, u)
  else
    (Except.ok ((u.m_buf.drop u.m_next).take n), { u with m_next := u.m_next + n })

/-- Models `ntohs` applied to 2 copied bytes: big-endian decode. -/
def ntohs (bs : List Nat) : Nat := bs.getD 0 0 * 256 + bs.getD 1 0

/-- Models `ntohl` applied to 4 copied bytes: big-endian decode. -/
def ntohl (bs : List Nat) : Nat :=
  ((bs.getD 0 0 * 256 + bs.getD 1 0) * 256 + bs.getD 2 0) * 256 + bs.getD 3 0

/-- Value of a byte pattern read into a signed char. -/
def toI8 (w : Nat) : Int := if w < 128 then (w : Int) else (w : Int) - 256

/-- Value of a 16-bit pattern read into an int16_t. -/
def toI16 (w : Nat) : Int := if w < 32768 then (w : Int) else (w : Int) - 65536

/-- Value of a 32-bit pattern read into an int32_t. -/
def toI32 (w : Nat) : Int :=
  if w < 2147483648 then (w : Int) else (w : Int) - 4294967296

/-- Models `operator>>(unsigned char&)` — copy one byte verbatim. -/
def unpacker.extractU8 (u : unpacker) : Except unpack_error Nat × unpacker :=
  match u.copy 1 with
  | (Except.ok bs, u') => (Except.ok (bs.getD 0 0), u')
  | (Except.error e, u') => (Except.error e, u')

/-- Models `operator>>(signed char&)` / `operator>>(char&)` — copy one byte,
    interpreted two's-complement. -/
def unpacker.extractI8 (u : unpacker) : Except unpack_error Int × unpacker :=
  match u.copy 1 with
  | (Except.ok bs, u') => (Except.ok (toI8 (bs.getD 0 0)), u')
  | (Except.error e, u') => (Except.error e, u')

/-- Models `operator>>(std::byte&)` — copy one byte verbatim. -/
def unpacker.extractStdByte (u : unpacker) :
    Except unpack_error Nat × unpacker :=
  match u.copy 1 with
  | (Except.ok bs, u') => (Except.ok (bs.getD 0 0), u')
  | (Except.error e, u') => (Except.error e, u')

/-- Models `operator>>(bool&)` — copy one byte into a temporary, then
    `b = !!c`: any nonzero byte maps to true, zero to false. -/
def unpacker.extractBool (u : unpacker) : Except unpack_error Bool × unpacker :=
  match u.copy 1 with
  | (Except.ok bs, u') => (Except.ok (bs.getD 0 0 != 0), u')
  | (Except.error e, u') => (Except.error e, u')

/-- Models `operator>>(std::uint16_t&)` — copy 2 bytes, then ntohs. -/
def unpacker.extractU16 (u : unpacker) : Except unpack_error Nat × unpacker :=
  match u.copy 2 with
  | (Except.ok bs, u') => (Except.ok (ntohs bs), u')
  | (Except.error e, u') => (Except.error e, u')

/-- Models `operator>>(std::int16_t&)` — copy 2 bytes, ntohs, read as int16_t. -/
def unpacker.extractI16 (u : unpacker) : Except unpack_error Int × unpacker :=
  match u.copy 2 with
  | (Except.ok bs, u') => (Except.ok (toI16 (ntohs bs)), u')
  | (Except.error e, u') => (Except.error e, u')

/-- Models `operator>>(std::uint32_t&)` — copy 4 bytes, then ntohl. -/
def unpacker.extractU32 (u : unpacker) : Except unpack_error Nat × unpacker :=
  match u.copy 4 with
  | (Except.ok bs, u') => (Except.ok (ntohl bs), u')
  | (Except.error e, u') => (Except.error e, u')

/-- Models `operator>>(std::int32_t&)` — copy 4 bytes, ntohl, read as int32_t. -/
def unpacker.extractI32 (u : unpacker) : Except unpack_error Int × unpacker :=
  match u.copy 4 with
  | (Except.ok bs, u') => (Except.ok (toI32 (ntohl bs)), u')
  | (Except.error e, u') => (Except.error e, u')

/-- The destination types the primitive extractors write to. -/
inductive value where
  | n : Nat → value
  | i : Int → value
  | b : Bool → value
  deriving DecidableEq

/-- The primitive destination types of `operator>>`. -/
inductive field where
  | u8 | i8 | chr | stdByte | boolean | u16 | i16 | u32 | i32
  deriving DecidableEq

/-- Byte width consumed by extracting each primitive destination type. -/
def field.width : field → Nat
  | field.u8 => 1
  | field.i8 => 1
  | field.chr => 1
  | field.stdByte => 1
  | field.boolean => 1
  | field.u16 => 2
  | field.i16 => 2
  | field.u32 => 4
  | field.i32 => 4

/-- Dispatch to the primitive extractor for a destination type
    (the overload set of `james::unpacker::operator>>`). -/
def unpacker.extractField (u : unpacker) :
    field → Except unpack_error value × unpacker
  | field.u8 =>
    match u.extractU8 with
    | (Except.ok v, u') => (Except.ok (value.n v), u')
    | (Except.error e, u') => (Except.error e, u')
  | field.i8 =>
    match u.extractI8 with
    | (Except.ok v, u') => (Except.ok (value.i v), u')
    | (Except.error e, u') => (Except.error e, u')
  | field.chr =>
    match u.extractI8 with
    | (Except.ok v, u') => (Except.ok (value.i v), u')
    | (Except.error e, u') => (Except.error e, u')
  | field.stdByte =>
    match u.extractStdByte with
    | (Except.ok v, u') => (Except.ok (value.n v), u')
    | (Except.error e, u') => (Except.error e, u')
  | field.boolean =>
    match u.extractBool with
    | (Except.ok v, u') => (Except.ok (value.b v), u')
    | (Except.error e, u') => (Except.error e, u')
  | field.u16 =>
    match u.extractU16 with
    | (Except.ok v, u') => (Except.ok (value.n v), u')
    | (Except.error e, u') => (Except.error e, u')
  | field.i16 =>
    match u.extractI16 with
    | (Except.ok v, u') => (Except.ok (value.i v), u')
    | (Except.error e, u') => (Except.error e, u')
  | field.u32 =>
    match u.extractU32 with
    | (Except.ok v, u') => (Except.ok (value.n v), u')
    | (Except.error e, u') => (Except.error e, u')
  | field.i32 =>
    match u.extractI32 with
    | (Except.ok v, u') => (Except.ok (value.i v), u')
    | (Except.error e, u') => (Except.error e, u')

/-- Run a chain of extractions `u >> a >> b >> ...`, collecting each
    result (in C++ an exception aborts the chain; results after the
    first error are those of extracting from the unchanged state, which
    fail identically, so collecting them all is a conservative model). -/
def unpacker.runFields (u : unpacker) :
    List field → List (Except unpack_error value) × unpacker
  | [] => ([], u)
  | f :: fs =>
    let r := u.extractField f
    let rest := r.2.runFields fs
    (r.1 :: rest.1, rest.2)

/-- A reference out-parameter of `operator>>`: the destination keeps its
    old contents when the extraction throws before writing it, and holds
    the extracted value on success. -/
def into {α : Type} (r : Except unpack_error α × unpacker) (dest : α) :
    Except unpack_error Unit × α × unpacker :=
  match r with
  | (Except.ok v, u') => (Except.ok (), v, u')
  | (Except.error e, u') => (Except.error e, dest, u')

/-- Models `operator>>(bool& b)`: check_size runs (inside copy, on the
    temporary) before `b = !!c`, so `b` is untouched on overrun. -/
def unpacker.extractBoolInto (u : unpacker) (dest : Bool) :
    Except unpack_error Unit × Bool × unpacker :=
  into u.extractBool dest

/-- Models `operator>>(unsigned char& c)`: check_size runs inside copy before
    any byte is written into `c`. -/
def unpacker.extractU8Into (u : unpacker) (dest : Nat) :
    Except unpack_error Unit × Nat × unpacker :=
  into u.extractU8 dest

/-- Models `operator>>(std::uint16_t& s)`: check_size runs inside copy before
    any byte is written into `s`. -/
def unpacker.extractU16Into (u : unpacker) (dest : Nat) :
    Except unpack_error Unit × Nat × unpacker :=
  into u.extractU16 dest

/-- Models `operator>>(std::int32_t& l)`: check_size runs inside copy before
    any byte is written into `l`. -/
def unpacker.extractI32Into (u : unpacker) (dest : Int) :
    Except unpack_error Unit × Int × unpacker :=
  into u.extractI32 dest

/-- Models `operator>>(signed char& c)`: check_size runs inside copy before
    any byte is written into `c`. -/
def unpacker.extractI8Into (u : unpacker) (dest : Int) :
    Except unpack_error Unit × Int × unpacker :=
  into u.extractI8 dest

/-- Models `operator>>(char& c)` (the same copy-one-byte body, the byte
    read as in extractI8): check_size runs inside copy before any write
    into `c`. -/
def unpacker.extractChrInto (u : unpacker) (dest : Int) :
    Except unpack_error Unit × Int × unpacker :=
  into u.extractI8 dest

/-- Models `operator>>(std::byte& b)`: check_size runs inside copy before
    any byte is written into `b`. -/
def unpacker.extractStdByteInto (u : unpacker) (dest : Nat) :
    Except unpack_error Unit × Nat × unpacker :=
  into u.extractStdByte dest

/-- Models `operator>>(std::int16_t& s)`: check_size runs inside copy before
    any byte is written into `s`. -/
def unpacker.extractI16Into (u : unpacker) (dest : Int) :
    Except unpack_error Unit × Int × unpacker :=
  into u.extractI16 dest

/-- Models `operator>>(std::uint32_t& l)`: check_size runs inside copy before
    any byte is written into `l`. -/
def unpacker.extractU32Into (u : unpacker) (dest : Nat) :
    Except unpack_error Unit × Nat × unpacker :=
  into u.extractU32 dest

/-- Models `operator>>(T (&array)[N])` with T = std::uint16_t: extract the
    elements in sequence via `*this >> *tp++`; an overrun thrown at one
    element leaves that element and the later ones with their previous
    contents, while earlier elements keep their extracted values and the
    cursor keeps the position reached by the successful extractions. -/
def unpacker.extractArrU16 (u : unpacker) :
    List Nat → Except unpack_error Unit × List Nat × unpacker
  | [] => (Except.ok (), [], u)
  | d :: ds =>
    match u.extractU16 with
    | (Except.ok v, u') =>
      let r := u'.extractArrU16 ds
      (r.1, v :: r.2.1, r.2.2)
    | (Except.error e, u') => (Except.error e, d :: ds, u')

/-- The k big-endian 16-bit values decoded from consecutive byte pairs
    of the region starting at offset i (the values a successful run of
    the uint16 array extractor writes). -/
def u16Window (bs : List Nat) (i : Nat) : Nat → List Nat
  | 0 => []
  | k + 1 => (bs.getD i 0 * 256 + bs.getD (i + 1) 0) :: u16Window bs (i + 2) k

end james

section helpers

open kerry james

/-- check_size throws and copy leaves the state untouched whenever fewer
    than n bytes remain. -/
theorem copy_fail {u : unpacker} {n : Nat} (h : u.remaining < n) :
    u.copy n = (Except.error unpack_error.overrun, u) := by
  unfold unpacker.copy
  rw [if_pos]
  unfold unpacker.remaining at h
  omega

/-- When n bytes fit, copy yields them and advances the cursor by n. -/
theorem copy_ok {u : unpacker} {n : Nat} (h : u.m_next + n ≤ u.m_buf.length) :
    u.copy n = (Except.ok ((u.m_buf.drop u.m_next).take n),
                ⟨u.m_buf, u.m_next + n⟩) := by
  unfold unpacker.copy
  rw [if_neg]
  omega

/-- Reading inside a take-of-drop window is reading the base list. -/
theorem take_drop_getD (l : List Nat) (i j n : Nat) (h : j < n) :
    ((l.drop i).take n).getD j 0 = l.getD (i + j) 0 := by
  simp [List.getD_eq_getElem?_getD, List.getElem?_take, h, List.getElem?_drop]

/-- Every typed extractor ends in the state its underlying copy produced,
    and fails exactly when the copy of its width fails. -/
theorem extractField_state (u : unpacker) (f : field) :
    (u.extractField f).2 = (u.copy f.width).2 ∧
    ((u.extractField f).1 = Except.error unpack_error.overrun ↔
      (u.copy f.width).1 = Except.error unpack_error.overrun) := by
  cases f <;>
    simp only [unpacker.extractField, unpacker.extractU8, unpacker.extractI8,
      unpacker.extractStdByte, unpacker.extractBool, unpacker.extractU16,
      unpacker.extractI16, unpacker.extractU32, unpacker.extractI32,
      field.width] <;>
    first
    | (rcases hcp : u.copy 1 with ⟨r, u'⟩; cases r <;> simp [hcp])
    | (rcases hcp : u.copy 2 with ⟨r, u'⟩; cases r <;> simp [hcp])
    | (rcases hcp : u.copy 4 with ⟨r, u'⟩; cases r <;> simp [hcp])

/-- copy never changes the borrowed region. -/
theorem copy_buf (u : unpacker) (n : Nat) : (u.copy n).2.m_buf = u.m_buf := by
  unfold unpacker.copy
  split <;> rfl

/-- Typed extraction never changes the borrowed region. -/
theorem extractField_buf (u : unpacker) (f : field) :
    (u.extractField f).2.m_buf = u.m_buf := by
  rw [(extractField_state u f).1, copy_buf]

/-- A chain of extractions never changes the borrowed region. -/
theorem runFields_buf (fs : List field) :
    ∀ u : unpacker, (u.runFields fs).2.m_buf = u.m_buf := by
  induction fs with
  | nil => intro u; rfl
  | cons f fs ih =>
    intro u
    show ((u.extractField f).2.runFields fs).2.m_buf = u.m_buf
    rw [ih, extractField_buf]

end helpers

/-- Claim C5: multi-byte integers are encoded big-endian (network byte
    order) regardless of host order: inserting the unsigned 16-bit value
    0x3344 into an empty packer produces exactly the bytes {0x33, 0x44},
    and inserting the signed 32-bit value -2 produces exactly the bytes
    {0xFF, 0xFF, 0xFF, 0xFE}. -/
theorem big_endian_wire_bytes :
    (kerry.packer.mk0.insertU16 0x3344).m_data = [0x33, 0x44] ∧
    (kerry.packer.mk0.insertI32 (-2)).m_data = [0xFF, 0xFF, 0xFF, 0xFE] := by
  decide

/-- Claim C6: inserting a null-terminated character string literal of
    length L (not counting the terminator) appends exactly L + 1 bytes:
    the L character bytes in order followed by the terminating null byte;
    inserting "Hello" grows size() by 6 and the last appended byte is 0. -/
theorem string_literal_insertion_size :
    (∀ (p : kerry.packer) (s : String),
      (p.insertByteArray (kerry.cLiteralBytes s)).size = p.size + s.length + 1 ∧
      (p.insertByteArray (kerry.cLiteralBytes s)).m_data =
        p.m_data ++ s.data.map (fun c => c.toNat % 256) ++ [0] ∧
      (p.insertByteArray (kerry.cLiteralBytes s)).m_data.getLast? = some 0) ∧
    (kerry.packer.mk0.insertByteArray (kerry.cLiteralBytes "Hello")).size = 6 ∧
    (kerry.packer.mk0.insertByteArray (kerry.cLiteralBytes "Hello")).m_data =
      [72, 101, 108, 108, 111, 0] := by
  refine ⟨fun p s => ⟨?_, ?_, ?_⟩, by decide, by decide⟩
  · simp [kerry.packer.insertByteArray, kerry.packer.copy, kerry.packer.size,
      kerry.cLiteralBytes]
    omega
  · simp [kerry.packer.insertByteArray, kerry.packer.copy, kerry.cLiteralBytes]
  · simp [kerry.packer.insertByteArray, kerry.packer.copy, kerry.cLiteralBytes,
      ← List.append_assoc]

/-- Claim C3: data() raises size_error iff target_size > 0 and
    size() differs from target_size at the moment of the call; the check
    is fresh on each call, so further insertions that bring size() to
    exactly target_size make a subsequent read-out succeed (data() is a
    const member, so a failed read-out changes nothing). -/
theorem readout_size_check :
    (∀ p : kerry.packer,
      ((∃ e, p.data = Except.error e) ↔
        p.m_target_size > 0 ∧ p.size ≠ p.m_target_size) ∧
      (p.data = Except.ok p.m_data ↔
        (p.m_target_size = 0 ∨ p.size = p.m_target_size))) ∧
    (∀ (p : kerry.packer) (bs : List Nat),
      p.size + bs.length = p.m_target_size →
      (p.insertByteArray bs).data = Except.ok (p.m_data ++ bs)) := by
  constructor
  · intro p
    by_cases hc : p.m_target_size > 0 ∧ p.size ≠ p.m_target_size
    · constructor
      · simp [kerry.packer.data, kerry.packer.check_size, hc]
      · simp only [kerry.packer.data, kerry.packer.check_size, if_pos hc]
        constructor
        · intro hco
          exact absurd hco (by simp)
        · intro hco
          omega
    · constructor
      · simp [kerry.packer.data, kerry.packer.check_size, hc]
      · simp only [kerry.packer.data, kerry.packer.check_size, if_neg hc]
        constructor
        · intro _
          omega
        · intro _
          trivial
  · intro p bs h
    have hsz : (p.m_data ++ bs).length = p.m_target_size := by
      simpa [kerry.packer.size] using h
    simp [kerry.packer.data, kerry.packer.check_size, kerry.packer.insertByteArray,
      kerry.packer.copy, kerry.packer.size, hsz]

/-- Claim C2: an extraction that needs N bytes when remaining() < N
    raises an overrun error and does not advance the cursor; in
    particular an unpacker over a 3-byte region asked for a 4-byte value
    fails with overrun and remaining() still reports 3. -/
theorem overrun_error_no_cursor_move :
    (∀ (u : james.unpacker) (f : james.field), u.remaining < f.width →
      u.extractField f = (Except.error james.unpack_error.overrun, u)) ∧
    (james.unpacker.mk0 [1, 2, 3]).extractU32 =
      (Except.error james.unpack_error.overrun, james.unpacker.mk0 [1, 2, 3]) ∧
    (james.unpacker.mk0 [1, 2, 3]).extractU32.2.remaining = 3 := by
  refine ⟨?_, by rfl, by rfl⟩
  intro u f h
  have hcp : u.copy f.width = (Except.error james.unpack_error.overrun, u) :=
    copy_fail h
  have hs := extractField_state u f
  have h2 : (u.extractField f).2 = u := by rw [hs.1, hcp]
  have h1 : (u.extractField f).1 = Except.error james.unpack_error.overrun :=
    hs.2.mpr (by rw [hcp])
  have hpair : u.extractField f =
      ((u.extractField f).1, (u.extractField f).2) := rfl
  rw [hpair, h1, h2]

/-- Witness for overrun_error_no_cursor_move at a concrete 3-byte region
    and a 4-byte extraction. -/
theorem overrun_error_no_cursor_move_witness :
    (james.unpacker.mk0 [1, 2, 3]).remaining < (james.field.u32).width ∧
    (james.unpacker.mk0 [1, 2, 3]).extractField james.field.u32 =
      (Except.error james.unpack_error.overrun, james.unpacker.mk0 [1, 2, 3]) :=
  ⟨by decide,
   overrun_error_no_cursor_move.1 (james.unpacker.mk0 [1, 2, 3])
     james.field.u32 (by decide)⟩

/-- Witness for readout_size_check: a packer targeted at 6 bytes holding
    4 bytes fails read-out, and appending 2 more bytes makes it succeed. -/
theorem readout_size_check_witness :
    ((kerry.packer.mkSized 6).insertU32 1).size + ([0, 5] : List Nat).length =
      ((kerry.packer.mkSized 6).insertU32 1).m_target_size ∧
    (((kerry.packer.mkSized 6).insertU32 1).insertByteArray [0, 5]).data =
      Except.ok (((kerry.packer.mkSized 6).insertU32 1).m_data ++ [0, 5]) :=
  ⟨by decide, readout_size_check.2 ((kerry.packer.mkSized 6).insertU32 1)
    [0, 5] (by decide)⟩

/-- Claim C4: the cursor invariant begin ≤ next ≤ end holds at all times
    (next is a nonnegative offset from begin, and never exceeds the
    region length), and a successful extraction of a type of width N
    advances next by exactly N, never past end; a failed one leaves next
    where it was. -/
theorem cursor_bounds_invariant :
    ∀ (u : james.unpacker) (f : james.field), u.m_next ≤ u.m_buf.length →
      (u.extractField f).2.m_buf = u.m_buf ∧
      (u.extractField f).2.m_next ≤ u.m_buf.length ∧
      (∀ v, (u.extractField f).1 = Except.ok v →
        (u.extractField f).2.m_next = u.m_next + f.width) ∧
      ((u.extractField f).1 = Except.error james.unpack_error.overrun →
        (u.extractField f).2.m_next = u.m_next) := by
  intro u f h
  obtain ⟨hst, herr⟩ := extractField_state u f
  by_cases hc : u.m_next + f.width ≤ u.m_buf.length
  · have hcp := copy_ok hc
    refine ⟨by rw [hst, hcp], by rw [hst, hcp]; exact hc, ?_, ?_⟩
    · intro v _
      rw [hst, hcp]
    · intro he
      have hbad := herr.mp he
      rw [hcp] at hbad
      exact absurd hbad (by simp)
  · have hr : u.remaining < f.width := by
      unfold james.unpacker.remaining
      omega
    have hcp := copy_fail hr
    refine ⟨by rw [hst, hcp], by rw [hst, hcp]; exact h, ?_, ?_⟩
    · intro v hok
      have hbad : (u.extractField f).1 = Except.error james.unpack_error.overrun :=
        herr.mpr (by rw [hcp])
      rw [hok] at hbad
      exact absurd hbad (by simp)
    · intro _
      rw [hst, hcp]

/-- Witness for cursor_bounds_invariant at a concrete 3-byte region and
    a 2-byte extraction. -/
theorem cursor_bounds_invariant_witness :
    (james.unpacker.mk0 [1, 2, 3]).m_next ≤
      (james.unpacker.mk0 [1, 2, 3]).m_buf.length ∧
    (((james.unpacker.mk0 [1, 2, 3]).extractField james.field.u16).2.m_buf =
        (james.unpacker.mk0 [1, 2, 3]).m_buf ∧
     ((james.unpacker.mk0 [1, 2, 3]).extractField james.field.u16).2.m_next ≤
        (james.unpacker.mk0 [1, 2, 3]).m_buf.length ∧
     (∀ v, ((james.unpacker.mk0 [1, 2, 3]).extractField james.field.u16).1 =
        Except.ok v →
        ((james.unpacker.mk0 [1, 2, 3]).extractField james.field.u16).2.m_next =
          (james.unpacker.mk0 [1, 2, 3]).m_next + (james.field.u16).width) ∧
     (((james.unpacker.mk0 [1, 2, 3]).extractField james.field.u16).1 =
        Except.error james.unpack_error.overrun →
        ((james.unpacker.mk0 [1, 2, 3]).extractField james.field.u16).2.m_next =
          (james.unpacker.mk0 [1, 2, 3]).m_next)) :=
  ⟨by decide,
   cursor_bounds_invariant (james.unpacker.mk0 [1, 2, 3]) james.field.u16
     (by decide)⟩

/-- Claim C7: with at least one byte remaining, extracting into a bool
    destination consumes exactly one byte and yields true iff that byte
    is nonzero; byte 0x02 yields true, byte 0x00 yields false. -/
theorem bool_extraction_normalization :
    (∀ u : james.unpacker, 1 ≤ u.remaining →
      u.extractBool = (Except.ok (u.m_buf.getD u.m_next 0 != 0),
                       ⟨u.m_buf, u.m_next + 1⟩)) ∧
    (james.unpacker.mk0 [2]).extractBool = (Except.ok true, ⟨[2], 1⟩) ∧
    (james.unpacker.mk0 [0]).extractBool = (Except.ok false, ⟨[0], 1⟩) := by
  refine ⟨?_, by rfl, by rfl⟩
  intro u h
  have hc : u.m_next + 1 ≤ u.m_buf.length := by
    unfold james.unpacker.remaining at h
    omega
  have hcp := copy_ok hc
  unfold james.unpacker.extractBool
  rw [hcp]
  simp [take_drop_getD u.m_buf u.m_next 0 1 (by omega)]

/-- Claim C1: for every supported primitive type (1-byte integrals,
    std::byte, bool, signed/unsigned 16- and 32-bit integers) and every
    value v of that type, inserting v into a fresh variable-size packer
    and extracting the same type from an unpacker wrapping the packer's
    finished buffer (its data()) yields v again. -/
theorem roundtrip_primitives :
    (∀ (v : Nat) (bs : List Nat), v < 256 →
      (kerry.packer.mk0.insertU8 v).data = Except.ok bs →
      (james.unpacker.mk0 bs).extractU8.1 = Except.ok v) ∧
    (∀ (v : Nat) (bs : List Nat), v < 256 →
      (kerry.packer.mk0.insertStdByte v).data = Except.ok bs →
      (james.unpacker.mk0 bs).extractStdByte.1 = Except.ok v) ∧
    (∀ (v : Int) (bs : List Nat), -128 ≤ v → v < 128 →
      (kerry.packer.mk0.insertI8 v).data = Except.ok bs →
      (james.unpacker.mk0 bs).extractI8.1 = Except.ok v) ∧
    (∀ (b : Bool) (bs : List Nat),
      (kerry.packer.mk0.insertBool b).data = Except.ok bs →
      (james.unpacker.mk0 bs).extractBool.1 = Except.ok b) ∧
    (∀ (v : Nat) (bs : List Nat), v < 65536 →
      (kerry.packer.mk0.insertU16 v).data = Except.ok bs →
      (james.unpacker.mk0 bs).extractU16.1 = Except.ok v) ∧
    (∀ (v : Int) (bs : List Nat), -32768 ≤ v → v < 32768 →
      (kerry.packer.mk0.insertI16 v).data = Except.ok bs →
      (james.unpacker.mk0 bs).extractI16.1 = Except.ok v) ∧
    (∀ (v : Nat) (bs : List Nat), v < 4294967296 →
      (kerry.packer.mk0.insertU32 v).data = Except.ok bs →
      (james.unpacker.mk0 bs).extractU32.1 = Except.ok v) ∧
    (∀ (v : Int) (bs : List Nat), -2147483648 ≤ v → v < 2147483648 →
      (kerry.packer.mk0.insertI32 v).data = Except.ok bs →
      (james.unpacker.mk0 bs).extractI32.1 = Except.ok v) := by
  refine ⟨?_, ?_, ?_, ?_, ?_, ?_, ?_, ?_⟩
  · intro v bs hv hd
    have hd' : (kerry.packer.mk0.insertU8 v).data = Except.ok [v % 256] := rfl
    rw [hd'] at hd
    injection hd with hbs
    subst hbs
    simp [james.unpacker.mk0, james.unpacker.extractU8, james.unpacker.copy,
      Nat.mod_eq_of_lt hv]
  · intro v bs hv hd
    have hd' : (kerry.packer.mk0.insertStdByte v).data = Except.ok [v % 256] := rfl
    rw [hd'] at hd
    injection hd with hbs
    subst hbs
    simp [james.unpacker.mk0, james.unpacker.extractStdByte, james.unpacker.copy,
      Nat.mod_eq_of_lt hv]
  · intro v bs hv1 hv2 hd
    have hd' : (kerry.packer.mk0.insertI8 v).data =
        Except.ok [(v % 256).toNat] := rfl
    rw [hd'] at hd
    injection hd with hbs
    subst hbs
    simp [james.unpacker.mk0, james.unpacker.extractI8, james.unpacker.copy,
      james.toI8]
    split <;> omega
  · intro b bs hd
    cases b
    · have hd' : (kerry.packer.mk0.insertBool false).data = Except.ok [0] := rfl
      rw [hd'] at hd
      injection hd with hbs
      subst hbs
      rfl
    · have hd' : (kerry.packer.mk0.insertBool true).data = Except.ok [1] := rfl
      rw [hd'] at hd
      injection hd with hbs
      subst hbs
      rfl
  · intro v bs hv hd
    have hd' : (kerry.packer.mk0.insertU16 v).data =
        Except.ok [v % 65536 / 256, v % 256] := rfl
    rw [hd'] at hd
    injection hd with hbs
    subst hbs
    simp [james.unpacker.mk0, james.unpacker.extractU16, james.unpacker.copy,
      james.ntohs]
    omega
  · intro v bs hv1 hv2 hd
    have hd' : (kerry.packer.mk0.insertI16 v).data =
        Except.ok [(v % 65536).toNat % 65536 / 256, (v % 65536).toNat % 256] := rfl
    rw [hd'] at hd
    injection hd with hbs
    subst hbs
    simp [james.unpacker.mk0, james.unpacker.extractI16, james.unpacker.copy,
      james.ntohs, james.toI16]
    split <;> omega
  · intro v bs hv hd
    have hd' : (kerry.packer.mk0.insertU32 v).data =
        Except.ok [v % 4294967296 / 16777216, v / 65536 % 256,
          v / 256 % 256, v % 256] := rfl
    rw [hd'] at hd
    injection hd with hbs
    subst hbs
    simp [james.unpacker.mk0, james.unpacker.extractU32, james.unpacker.copy,
      james.ntohl]
    omega
  · intro v bs hv1 hv2 hd
    have hd' : (kerry.packer.mk0.insertI32 v).data =
        Except.ok [(v % 4294967296).toNat % 4294967296 / 16777216,
          (v % 4294967296).toNat / 65536 % 256,
          (v % 4294967296).toNat / 256 % 256,
          (v % 4294967296).toNat % 256] := rfl
    rw [hd'] at hd
    injection hd with hbs
    subst hbs
    simp [james.unpacker.mk0, james.unpacker.extractI32, james.unpacker.copy,
      james.ntohl, james.toI32]
    split <;> omega

/-- Witness for roundtrip_primitives at one concrete value per supported
    primitive type. -/
theorem roundtrip_primitives_witness :
    ((james.unpacker.mk0 [5]).extractU8.1 = Except.ok 5) ∧
    ((james.unpacker.mk0 [7]).extractStdByte.1 = Except.ok 7) ∧
    ((james.unpacker.mk0 [249]).extractI8.1 = Except.ok (-7)) ∧
    ((james.unpacker.mk0 [1]).extractBool.1 = Except.ok true) ∧
    ((james.unpacker.mk0 [0x33, 0x44]).extractU16.1 = Except.ok 0x3344) ∧
    ((james.unpacker.mk0 [0xFF, 0xFE]).extractI16.1 = Except.ok (-2)) ∧
    ((james.unpacker.mk0 [0, 1, 0x86, 0xA0]).extractU32.1 = Except.ok 100000) ∧
    ((james.unpacker.mk0 [0xFF, 0xFF, 0xFF, 0xFB]).extractI32.1 =
      Except.ok (-5)) :=
  ⟨roundtrip_primitives.1 5 [5] (by decide) (by rfl),
   roundtrip_primitives.2.1 7 [7] (by decide) (by rfl),
   roundtrip_primitives.2.2.1 (-7) [249] (by decide) (by decide) (by rfl),
   roundtrip_primitives.2.2.2.1 true [1] (by rfl),
   roundtrip_primitives.2.2.2.2.1 0x3344 [0x33, 0x44] (by decide) (by rfl),
   roundtrip_primitives.2.2.2.2.2.1 (-2) [0xFF, 0xFE] (by decide) (by decide)
     (by rfl),
   roundtrip_primitives.2.2.2.2.2.2.1 100000 [0, 1, 0x86, 0xA0] (by decide)
     (by rfl),
   roundtrip_primitives.2.2.2.2.2.2.2 (-5) [0xFF, 0xFF, 0xFF, 0xFB]
     (by decide) (by decide) (by rfl)⟩

/-- Witness for bool_extraction_normalization at a concrete 1-byte
    region holding 0x02. -/
theorem bool_extraction_normalization_witness :
    1 ≤ (james.unpacker.mk0 [2]).remaining ∧
    (james.unpacker.mk0 [2]).extractBool =
      (Except.ok ((james.unpacker.mk0 [2]).m_buf.getD
          (james.unpacker.mk0 [2]).m_next 0 != 0),
       ⟨(james.unpacker.mk0 [2]).m_buf, (james.unpacker.mk0 [2]).m_next + 1⟩) :=
  ⟨by decide, bool_extraction_normalization.1 (james.unpacker.mk0 [2]) (by decide)⟩

/-- Claim C8: after any sequence of extractions, reset() restores
    remaining() == size() without altering the underlying bytes, and
    repeating the same extraction sequence afterwards yields exactly the
    same sequence of results as the first pass. -/
theorem reset_reproduces_extractions :
    ∀ (bs : List Nat) (fs : List james.field),
      ((james.unpacker.mk0 bs).runFields fs).2.reset.remaining =
        ((james.unpacker.mk0 bs).runFields fs).2.size ∧
      ((james.unpacker.mk0 bs).runFields fs).2.reset.m_buf = bs ∧
      ((james.unpacker.mk0 bs).runFields fs).2.reset.runFields fs =
        (james.unpacker.mk0 bs).runFields fs := by
  intro bs fs
  have hbuf : ((james.unpacker.mk0 bs).runFields fs).2.m_buf = bs :=
    runFields_buf fs (james.unpacker.mk0 bs)
  have hreset : ((james.unpacker.mk0 bs).runFields fs).2.reset =
      james.unpacker.mk0 bs := by
    unfold james.unpacker.reset
    rw [hbuf]
    rfl
  refine ⟨?_, ?_, ?_⟩
  · rw [hreset]
    have hsize : ((james.unpacker.mk0 bs).runFields fs).2.size = bs.length := by
      unfold james.unpacker.size
      rw [hbuf]
    rw [hsize]
    rfl
  · rw [hreset]
    rfl
  · rw [hreset]

/-- Claim C9: every primitive extraction that fails with an overrun
    error (all nine overloads: unsigned char, signed char, char, bool,
    std::byte, uint16_t, int16_t, uint32_t, int32_t) leaves the caller's
    destination object completely unchanged, because check_size runs
    inside copy before any write. -/
theorem failed_extraction_destination_unchanged :
    ∀ u : james.unpacker,
      (∀ d : Nat, u.remaining < 1 →
        u.extractU8Into d = (Except.error james.unpack_error.overrun, d, u)) ∧
      (∀ d : Int, u.remaining < 1 →
        u.extractI8Into d = (Except.error james.unpack_error.overrun, d, u)) ∧
      (∀ d : Int, u.remaining < 1 →
        u.extractChrInto d = (Except.error james.unpack_error.overrun, d, u)) ∧
      (∀ d : Bool, u.remaining < 1 →
        u.extractBoolInto d = (Except.error james.unpack_error.overrun, d, u)) ∧
      (∀ d : Nat, u.remaining < 1 →
        u.extractStdByteInto d =
          (Except.error james.unpack_error.overrun, d, u)) ∧
      (∀ d : Nat, u.remaining < 2 →
        u.extractU16Into d = (Except.error james.unpack_error.overrun, d, u)) ∧
      (∀ d : Int, u.remaining < 2 →
        u.extractI16Into d = (Except.error james.unpack_error.overrun, d, u)) ∧
      (∀ d : Nat, u.remaining < 4 →
        u.extractU32Into d = (Except.error james.unpack_error.overrun, d, u)) ∧
      (∀ d : Int, u.remaining < 4 →
        u.extractI32Into d = (Except.error james.unpack_error.overrun, d, u)) := by
  intro u
  refine ⟨?_, ?_, ?_, ?_, ?_, ?_, ?_, ?_, ?_⟩ <;> intro d h <;>
    simp [james.unpacker.extractU8Into, james.unpacker.extractI8Into,
      james.unpacker.extractChrInto, james.unpacker.extractBoolInto,
      james.unpacker.extractStdByteInto, james.unpacker.extractU16Into,
      james.unpacker.extractI16Into, james.unpacker.extractU32Into,
      james.unpacker.extractI32Into, james.into,
      james.unpacker.extractU8, james.unpacker.extractI8,
      james.unpacker.extractBool, james.unpacker.extractStdByte,
      james.unpacker.extractU16, james.unpacker.extractI16,
      james.unpacker.extractU32, james.unpacker.extractI32, copy_fail h]

/-- Witness for failed_extraction_destination_unchanged on an exhausted
    unpacker with destination value 42 (the uint16_t conjunct). -/
theorem failed_extraction_destination_unchanged_witness :
    (james.unpacker.mk0 []).remaining < 2 ∧
    (james.unpacker.mk0 []).extractU16Into 42 =
      (Except.error james.unpack_error.overrun, 42, james.unpacker.mk0 []) :=
  ⟨by decide,
   (failed_extraction_destination_unchanged
     (james.unpacker.mk0 [])).2.2.2.2.2.1 42 (by decide)⟩

/-- A successful uint16 extraction moves the cursor forward 2 bytes and
    decodes the two bytes at the old cursor big-endian. -/
theorem extractU16_ok {u u' : james.unpacker} {v : Nat}
    (h : u.extractU16 = (Except.ok v, u')) :
    u' = ⟨u.m_buf, u.m_next + 2⟩ ∧ u.m_next + 2 ≤ u.m_buf.length ∧
    v = u.m_buf.getD u.m_next 0 * 256 + u.m_buf.getD (u.m_next + 1) 0 := by
  by_cases hc : u.m_next + 2 ≤ u.m_buf.length
  · simp only [james.unpacker.extractU16, copy_ok hc, james.ntohs] at h
    injection h with h1 h2
    injection h1 with hv
    refine ⟨h2.symm, hc, ?_⟩
    rw [← hv]
    simp [take_drop_getD u.m_buf u.m_next 0 2 (by omega),
      take_drop_getD u.m_buf u.m_next 1 2 (by omega)]
  · have hr : u.remaining < 2 := by
      unfold james.unpacker.remaining
      omega
    simp only [james.unpacker.extractU16, copy_fail hr] at h
    exact absurd h (by simp)

/-- A failed uint16 extraction leaves the state unchanged and happens
    exactly when fewer than 2 bytes remain. -/
theorem extractU16_err {u u' : james.unpacker} {e : james.unpack_error}
    (h : u.extractU16 = (Except.error e, u')) :
    u' = u ∧ u.m_buf.length < u.m_next + 2 := by
  by_cases hc : u.m_next + 2 ≤ u.m_buf.length
  · simp only [james.unpacker.extractU16, copy_ok hc] at h
    exact absurd h (by simp)
  · have hr : u.remaining < 2 := by
      unfold james.unpacker.remaining
      omega
    simp only [james.unpacker.extractU16, copy_fail hr] at h
    injection h with h1 h2
    exact ⟨h2.symm, by omega⟩


/-- Induction workhorse for the uint16 array extractor: some k elements
    succeed, the cursor moves exactly 2k, the destination holds the k
    decoded values followed by its untouched tail, and the run succeeds
    iff k covers the whole array, failing only when the next element
    does not fit. -/
theorem extractArrU16_spec :
    ∀ (ds : List Nat) (u : james.unpacker), u.m_next ≤ u.m_buf.length →
      ∃ k, k ≤ ds.length ∧
        u.m_next + 2 * k ≤ u.m_buf.length ∧
        (u.extractArrU16 ds).2.2.m_buf = u.m_buf ∧
        (u.extractArrU16 ds).2.2.m_next = u.m_next + 2 * k ∧
        (u.extractArrU16 ds).2.1 =
          james.u16Window u.m_buf u.m_next k ++ ds.drop k ∧
        ((u.extractArrU16 ds).1 = Except.ok () ↔ k = ds.length) ∧
        ((u.extractArrU16 ds).1 = Except.error james.unpack_error.overrun →
          u.m_buf.length < u.m_next + 2 * k + 2) := by
  intro ds
  induction ds with
  | nil =>
    intro u h
    refine ⟨0, Nat.le_refl 0, by omega, rfl, ?_, rfl, ?_, ?_⟩ <;>
      simp [james.unpacker.extractArrU16]
  | cons d ds ih =>
    intro u h
    rcases hx : u.extractU16 with ⟨r, u1⟩
    cases r with
    | ok v =>
      obtain ⟨hu1, hle, hv⟩ := extractU16_ok hx
      subst hu1
      obtain ⟨k, hk, hk2, hbuf, hnext, hlist, hok, herr⟩ :=
        ih ⟨u.m_buf, u.m_next + 2⟩ hle
      have hk2' : u.m_next + 2 + 2 * k ≤ u.m_buf.length := hk2
      have hbuf' : ((⟨u.m_buf, u.m_next + 2⟩ : james.unpacker).extractArrU16
          ds).2.2.m_buf = u.m_buf := hbuf
      have hnext' : ((⟨u.m_buf, u.m_next + 2⟩ : james.unpacker).extractArrU16
          ds).2.2.m_next = u.m_next + 2 + 2 * k := hnext
      have hlist' : ((⟨u.m_buf, u.m_next + 2⟩ : james.unpacker).extractArrU16
          ds).2.1 = james.u16Window u.m_buf (u.m_next + 2) k ++ ds.drop k :=
        hlist
      have hgoal : u.extractArrU16 (d :: ds) =
          (((⟨u.m_buf, u.m_next + 2⟩ : james.unpacker).extractArrU16 ds).1,
           v :: ((⟨u.m_buf, u.m_next + 2⟩ : james.unpacker).extractArrU16
             ds).2.1,
           ((⟨u.m_buf, u.m_next + 2⟩ : james.unpacker).extractArrU16
             ds).2.2) := by
        simp [james.unpacker.extractArrU16, hx]
      refine ⟨k + 1, by simp; omega, by omega, ?_, ?_, ?_, ?_, ?_⟩
      · rw [hgoal]
        exact hbuf'
      · rw [hgoal]
        exact hnext'.trans (by omega)
      · rw [hgoal]
        show v :: ((⟨u.m_buf, u.m_next + 2⟩ : james.unpacker).extractArrU16
          ds).2.1 = _
        rw [hlist', hv]
        simp [james.u16Window]
      · rw [hgoal]
        show ((⟨u.m_buf, u.m_next + 2⟩ : james.unpacker).extractArrU16
          ds).1 = Except.ok () ↔ k + 1 = (d :: ds).length
        rw [hok]
        simp
      · rw [hgoal]
        intro he
        have h7 : u.m_buf.length < u.m_next + 2 + 2 * k + 2 := herr he
        omega
    | error e =>
      cases e
      obtain ⟨hu1, hlen⟩ := extractU16_err hx
      have hgoal : u.extractArrU16 (d :: ds) =
          (Except.error james.unpack_error.overrun, d :: ds, u) := by
        simp [james.unpacker.extractArrU16, hx, hu1]
      refine ⟨0, Nat.zero_le _, by omega, ?_, ?_, ?_, ?_, ?_⟩
      · rw [hgoal]
      · rw [hgoal]
        show u.m_next = u.m_next + 2 * 0
        omega
      · rw [hgoal]
        show d :: ds = james.u16Window u.m_buf u.m_next 0 ++ (d :: ds).drop 0
        simp [james.u16Window]
      · rw [hgoal]
        simp
      · rw [hgoal]
        intro _
        omega

/-- Claim C10: atomicity of failed extractions is per primitive element
    only, not per aggregate: when extracting a fixed-length array of
    16-bit elements and the overrun occurs at element k, the cursor
    stays advanced past the k successfully extracted elements
    (remaining() is reduced by 2k), those k destination elements hold
    the extracted values, and the rest keep their previous contents. -/
theorem array_extraction_per_element :
    ∀ (ds : List Nat) (u : james.unpacker), u.m_next ≤ u.m_buf.length →
      ∃ k, k ≤ ds.length ∧
        (u.extractArrU16 ds).2.2.m_buf = u.m_buf ∧
        (u.extractArrU16 ds).2.2.m_next = u.m_next + 2 * k ∧
        (u.extractArrU16 ds).2.2.remaining = u.remaining - 2 * k ∧
        (u.extractArrU16 ds).2.1 =
          james.u16Window u.m_buf u.m_next k ++ ds.drop k ∧
        ((u.extractArrU16 ds).1 = Except.ok () ↔ k = ds.length) ∧
        ((u.extractArrU16 ds).1 = Except.error james.unpack_error.overrun →
          u.m_buf.length < u.m_next + 2 * k + 2) := by
  intro ds u h
  obtain ⟨k, hk, hk2, hbuf, hnext, hlist, hok, herr⟩ := extractArrU16_spec ds u h
  refine ⟨k, hk, hbuf, hnext, ?_, hlist, hok, herr⟩
  unfold james.unpacker.remaining
  rw [hbuf, hnext]
  omega

/-- Witness for array_extraction_per_element: a 5-byte region and a
    3-element uint16 array; two elements fit, the third overruns. -/
theorem array_extraction_per_element_witness :
    (james.unpacker.mk0 [0, 1, 0, 2, 9]).m_next ≤
      (james.unpacker.mk0 [0, 1, 0, 2, 9]).m_buf.length ∧
    ∃ k, k ≤ ([7, 7, 7] : List Nat).length ∧
      ((james.unpacker.mk0 [0, 1, 0, 2, 9]).extractArrU16 [7, 7, 7]).2.2.m_buf =
        (james.unpacker.mk0 [0, 1, 0, 2, 9]).m_buf ∧
      ((james.unpacker.mk0 [0, 1, 0, 2, 9]).extractArrU16 [7, 7, 7]).2.2.m_next =
        (james.unpacker.mk0 [0, 1, 0, 2, 9]).m_next + 2 * k ∧
      ((james.unpacker.mk0 [0, 1, 0, 2, 9]).extractArrU16
          [7, 7, 7]).2.2.remaining =
        (james.unpacker.mk0 [0, 1, 0, 2, 9]).remaining - 2 * k ∧
      ((james.unpacker.mk0 [0, 1, 0, 2, 9]).extractArrU16 [7, 7, 7]).2.1 =
        james.u16Window (james.unpacker.mk0 [0, 1, 0, 2, 9]).m_buf
          (james.unpacker.mk0 [0, 1, 0, 2, 9]).m_next k ++
          ([7, 7, 7] : List Nat).drop k ∧
      (((james.unpacker.mk0 [0, 1, 0, 2, 9]).extractArrU16 [7, 7, 7]).1 =
          Except.ok () ↔ k = ([7, 7, 7] : List Nat).length) ∧
      (((james.unpacker.mk0 [0, 1, 0, 2, 9]).extractArrU16 [7, 7, 7]).1 =
          Except.error james.unpack_error.overrun →
        (james.unpacker.mk0 [0, 1, 0, 2, 9]).m_buf.length <
          (james.unpacker.mk0 [0, 1, 0, 2, 9]).m_next + 2 * k + 2) :=
  ⟨by decide,
   array_extraction_per_element [7, 7, 7] (james.unpacker.mk0 [0, 1, 0, 2, 9])
     (by decide)⟩
